import Mathlib

/-!
Verification development for the SkillForge roadmap engine.

The definitions below are a shallow embedding of the Rust source:
* `RoadmapNode`, `Roadmap`, `LearningResource` mirror `app/src/models.rs`
  (the `DateTime<Utc>` timestamps are modelled as abstract `Int` instants;
  `Option<RecordId>` record ids are modelled as `Option String`).
* `ordered_nodes` mirrors `app/src/pages/roadmap_view.rs::ordered_nodes`
  (the graph linearizer).
* `resolveReferences` mirrors the reference-resolution loop of
  `app/src/server_functions.rs::generate_roadmap_with_llm`.
* `mergeCourses` / `search_vector_db_multi_query` mirror
  `app/src/server_functions.rs::search_vector_db_multi_query`.
* `toggleRoadmap` / `toggle_node_completion` mirror
  `app/src/server_functions.rs::toggle_node_completion`.
* `generate_roadmap_model` mirrors the orchestration of
  `app/src/server_functions.rs::generate_roadmap`, with the external
  collaborators (session store, generative backend, embedding store)
  supplied as oracles.

Rust `HashMap`s whose contents are only read back via `get` are modelled as
association-list lookups (last insert wins, matching `collect`/`insert`
overwrite semantics); a `HashMap` that is *iterated* (`into_values`) is
modelled by quantifying over an arbitrary permutation of its contents, since
`std::collections::HashMap` iteration order is unspecified.
-/

/-- Mirrors `models.rs::LearningResource`. -/
structure LearningResource where
  title : String
  platform : String
  url : Option String
  resource_type : String
deriving DecidableEq, Repr

/-- Mirrors `models.rs::RoadmapNode`. -/
structure RoadmapNode where
  id : String
  skill_name : String
  description : String
  resources : List LearningResource
  prerequisites : List String
  is_completed : Bool
  prev_node_id : Option String
  next_node_id : Option String
deriving DecidableEq, Repr

/-- Mirrors `models.rs::Roadmap` (and `RoadmapDB`, which differs only in the
representation of the record id). Timestamps are abstract instants. -/
structure Roadmap where
  id : Option String
  user_id : String
  skill_name : String
  nodes : List RoadmapNode
  created_at : Int
  updated_at : Int
deriving DecidableEq, Repr

/-- The entry sequence inserted into the `by_id` hash map in
`roadmap_view.rs::ordered_nodes` (`.map(|n| (n.id.clone(), n)).collect()`). -/
def nodeEntries (nodes : List RoadmapNode) : List (String × RoadmapNode) :=
  nodes.map (fun n => (n.id, n))

/-- `HashMap::get` on a map built by sequential insertion: the *last* insert
for a key wins, so we look the key up in the reversed entry list. -/
def lookupEntries (entries : List (String × RoadmapNode)) (k : String) :
    Option RoadmapNode :=
  (entries.reverse.find? (fun p => p.1 == k)).map Prod.snd

/-- The `by_id` lookup of `ordered_nodes`. -/
def byId (nodes : List RoadmapNode) : String → Option RoadmapNode :=
  lookupEntries (nodeEntries nodes)

/-- Lexicographic order on character lists: the computable form of the
order Rust's `str::cmp` induces (UTF-8 byte order coincides with codepoint
order, which is lexicographic on the character sequence). -/
def charListLe : List Char → List Char → Bool
  | [], _ => true
  | _ :: _, [] => false
  | a :: l1, b :: l2 => if a = b then charListLe l1 l2 else decide (a < b)

/-- `a.skill_name.cmp(&b.skill_name).is_le()` as a Bool. -/
def strLe (s t : String) : Bool := charListLe s.data t.data

/-- Ordered insertion for the stable sort below: `a` goes in front of the
first element whose skill name is not below `a`'s. -/
def insertNode (a : RoadmapNode) : List RoadmapNode → List RoadmapNode
  | [] => [a]
  | b :: bs =>
    if strLe a.skill_name b.skill_name then a :: b :: bs
    else b :: insertNode a bs

/-- `sort_by(|a, b| a.skill_name.cmp(&b.skill_name))` — a stable sort by
skill name, modelled as stable insertion sort (a stable sort under a total
order is unique, so this computes exactly what Rust's stable `sort_by`
computes; Rust's `&str` byte order coincides with codepoint order on UTF-8,
which is Lean's `String` order). -/
def sortNodes : List RoadmapNode → List RoadmapNode
  | [] => []
  | x :: xs => insertNode x (sortNodes xs)

/-- The inner `loop` of `ordered_nodes`: starting from `curId`, follow
`next_node_id` while unvisited and resolvable, emitting each node.
The visited set is modelled as a list (`insert` = cons after a membership
test, exactly the `HashSet::insert` branch of the source).  The fuel
argument makes the loop total; `ordered_nodes` supplies enough fuel that it
is never exhausted, and every theorem is proved for the fuel actually
supplied. -/
def walk (lookup : String → Option RoadmapNode) :
    Nat → String → List String → List RoadmapNode × List String
  | 0, _, visited => ([], visited)
  | fuel + 1, curId, visited =>
    if curId ∈ visited then
      ([], visited)
    else
      match lookup curId with
      | none => ([], curId :: visited)
      | some node =>
        match node.next_node_id with
        | none => ([node], curId :: visited)
        | some next =>
          if (lookup next).isSome then
            let r := walk lookup fuel next (curId :: visited)
            (node :: r.1, r.2)
          else
            ([node], curId :: visited)

/-- The `for head in heads` loop of `ordered_nodes`: run `walk` from each
head in turn, threading the visited set and concatenating the emissions. -/
def processHeads (lookup : String → Option RoadmapNode) (fuel : Nat) :
    List RoadmapNode → List String → List RoadmapNode × List String
  | [], visited => ([], visited)
  | h :: hs, visited =>
    let r1 := walk lookup fuel h.id visited
    let r2 := processHeads lookup fuel hs r1.2
    (r1.1 ++ r2.1, r2.2)

/-- `roadmap_view.rs::ordered_nodes`, parameterised by the id lookup so that
independence from the hash map's entry order can be stated.  Head
candidates are the nodes whose `prev_node_id` is absent or does not resolve;
if there are none, all nodes become candidates; candidates are sorted by
skill name, walked in order, and the unvisited remainder is appended sorted
by skill name. -/
def orderedNodesWith (lookup : String → Option RoadmapNode)
    (nodes : List RoadmapNode) : List RoadmapNode :=
  let heads0 := nodes.filter (fun n => (n.prev_node_id.bind lookup).isNone)
  let heads := sortNodes (if heads0.isEmpty then nodes else heads0)
  let r := processHeads lookup (nodes.length + 1) heads []
  let remaining := nodes.filter (fun n => !(r.2.contains n.id))
  r.1 ++ sortNodes remaining

/-- `roadmap_view.rs::ordered_nodes`. -/
def ordered_nodes (r : Roadmap) : List RoadmapNode :=
  orderedNodesWith (byId r.nodes) r.nodes

/-- A node literal with everything defaulted except id / skill name / links,
used to build concrete test roadmaps. -/
def mkNode (i s : String) (prev next : Option String) : RoadmapNode :=
  { id := i, skill_name := s, description := "", resources := []
    prerequisites := [], is_completed := false
    prev_node_id := prev, next_node_id := next }

/-- The two-node perfect cycle of the spec scenario: A(next=B), B(next=A),
both with a (resolvable) predecessor, so no head candidate exists. -/
def cycleRoadmap : Roadmap :=
  { id := some "r1", user_id := "u", skill_name := "s"
    nodes := [mkNode "a" "A" (some "b") (some "b"),
              mkNode "b" "B" (some "a") (some "a")]
    created_at := 0, updated_at := 0 }

example : (ordered_nodes cycleRoadmap).map (fun n => n.id) = ["a", "b"] := by
  decide

example :
    (ordered_nodes { cycleRoadmap with nodes := [
      mkNode "a" "A" none (some "b"),
      mkNode "b" "B" (some "a") (some "c"),
      mkNode "c" "C" (some "b") none] }).map (fun n => n.id)
      = ["a", "b", "c"] := by
  decide

lemma byId_coherent {nodes : List RoadmapNode} {k : String} {n : RoadmapNode}
    (h : byId nodes k = some n) : n.id = k ∧ n ∈ nodes := by
  unfold byId lookupEntries at h
  obtain ⟨p, hp, hsnd⟩ := Option.map_eq_some'.mp h
  have hpred := List.find?_some hp
  have hmem := List.mem_of_find?_eq_some hp
  rw [List.mem_reverse] at hmem
  unfold nodeEntries at hmem
  obtain ⟨m, hm, hpm⟩ := List.mem_map.mp hmem
  subst hpm
  simp only at hsnd hpred
  subst hsnd
  exact ⟨eq_of_beq hpred, hm⟩

lemma byId_isSome_of_mem {nodes : List RoadmapNode} {n : RoadmapNode}
    (h : n ∈ nodes) : (byId nodes n.id).isSome := by
  unfold byId lookupEntries
  rw [Option.isSome_map']
  rw [List.find?_isSome]
  refine ⟨(n.id, n), ?_, by simp⟩
  rw [List.mem_reverse]
  unfold nodeEntries
  exact List.mem_map.mpr ⟨n, h, rfl⟩

lemma byId_self {nodes : List RoadmapNode}
    (hnd : (nodes.map (fun n => n.id)).Nodup) {n : RoadmapNode}
    (h : n ∈ nodes) : byId nodes n.id = some n := by
  obtain ⟨m, hm⟩ := Option.isSome_iff_exists.mp (byId_isSome_of_mem h)
  obtain ⟨hid, hmem⟩ := byId_coherent hm
  have : m = n := List.inj_on_of_nodup_map hnd hmem h hid
  rw [hm, this]

/-- The invariant carried through the traversal loops of `ordered_nodes`:
relative to the incoming visited set `v`, a (emitted nodes, final visited
set) pair is correct when the final visited set is exactly the emitted ids
plus `v`, the emitted ids are fresh and duplicate-free, and every emitted
node is what the id map returns for its id. -/
def SweepOK (lookup : String → Option RoadmapNode) (v : List String)
    (p : List RoadmapNode × List String) : Prop :=
  (∀ x, x ∈ p.2 ↔ x ∈ p.1.map (fun n => n.id) ∨ x ∈ v) ∧
  (p.1.map (fun n => n.id)).Nodup ∧
  (∀ x ∈ p.1.map (fun n => n.id), x ∉ v) ∧
  (∀ n ∈ p.1, lookup n.id = some n)

lemma walk_spec {lookup : String → Option RoadmapNode}
    (hcoh : ∀ k n, lookup k = some n → n.id = k) :
    ∀ (fuel : Nat) (c : String) (v : List String), (lookup c).isSome →
      SweepOK lookup v (walk lookup fuel c v) := by
  intro fuel
  induction fuel with
  | zero =>
    intro c v _
    refine ⟨fun x => by simp [walk], by simp [walk], by simp [walk], by simp [walk]⟩
  | succ fuel ih =>
    intro c v hc
    obtain ⟨node, hnode⟩ := Option.isSome_iff_exists.mp hc
    have hid : node.id = c := hcoh c node hnode
    by_cases hv : c ∈ v
    · refine ⟨fun x => by simp [walk, hv], by simp [walk, hv],
        by simp [walk, hv], by simp [walk, hv]⟩
    · cases hnx : node.next_node_id with
      | none =>
        refine ⟨fun x => by simp [walk, hv, hnode, hnx, hid, or_comm],
          by simp [walk, hv, hnode, hnx],
          by simp [walk, hv, hnode, hnx, hid, hv],
          ?_⟩
        intro n hn
        simp [walk, hv, hnode, hnx] at hn
        rw [hn, hid]
        exact hnode
      | some next =>
        by_cases hnext : (lookup next).isSome
        · have hrec := ih next (c :: v) hnext
          obtain ⟨ha, hb, hc', hd⟩ := hrec
          have hwalk : walk lookup (fuel + 1) c v =
              (node :: (walk lookup fuel next (c :: v)).1,
               (walk lookup fuel next (c :: v)).2) := by
            simp [walk, hv, hnode, hnx, hnext]
          rw [hwalk]
          refine ⟨?_, ?_, ?_, ?_⟩
          · intro x
            rw [ha x]
            simp only [List.map_cons, List.mem_cons, hid]
            constructor
            · rintro (h | h) <;> tauto
            · rintro ((h | h) | h) <;> tauto
          · simp only [List.map_cons, List.nodup_cons]
            refine ⟨?_, hb⟩
            intro hmem
            exact hc' node.id hmem (by simp [hid])
          · intro x hx hxv
            simp only [List.map_cons, List.mem_cons] at hx
            rcases hx with h | h
            · rw [h, hid] at hxv; exact hv hxv
            · exact hc' x h (by simp [hxv])
          · intro n hn
            rcases List.mem_cons.mp hn with h | h
            · rw [h, hid]; exact hnode
            · exact hd n h
        · refine ⟨fun x => by simp [walk, hv, hnode, hnx, hnext, hid, or_comm],
            by simp [walk, hv, hnode, hnx, hnext],
            by simp [walk, hv, hnode, hnx, hnext, hid, hv],
            ?_⟩
          intro n hn
          simp [walk, hv, hnode, hnx, hnext] at hn
          rw [hn, hid]
          exact hnode

lemma processHeads_spec {lookup : String → Option RoadmapNode}
    (hcoh : ∀ k n, lookup k = some n → n.id = k) (fuel : Nat) :
    ∀ (heads : List RoadmapNode) (v : List String),
      (∀ h ∈ heads, (lookup h.id).isSome) →
      SweepOK lookup v (processHeads lookup fuel heads v) := by
  intro heads
  induction heads with
  | nil =>
    intro v _
    refine ⟨fun x => by simp [processHeads], by simp [processHeads],
      by simp [processHeads], by simp [processHeads]⟩
  | cons h hs ih =>
    intro v hheads
    obtain ⟨wa, wb, wc, wd⟩ := walk_spec hcoh fuel h.id v (hheads h (by simp))
    obtain ⟨pa, pb, pc, pd⟩ := ih (walk lookup fuel h.id v).2
      (fun h' hh' => hheads h' (by simp [hh']))
    have hph : processHeads lookup fuel (h :: hs) v =
        ((walk lookup fuel h.id v).1 ++
          (processHeads lookup fuel hs (walk lookup fuel h.id v).2).1,
         (processHeads lookup fuel hs (walk lookup fuel h.id v).2).2) := by
      simp [processHeads]
    rw [hph]
    refine ⟨?_, ?_, ?_, ?_⟩
    · intro x
      rw [pa x, wa x]
      simp only [List.map_append, List.mem_append]
      tauto
    · rw [List.map_append, List.nodup_append]
      refine ⟨wb, pb, ?_⟩
      intro x hx hx'
      exact pc x hx' ((wa x).mpr (Or.inl hx))
    · intro x hx hxv
      rw [List.map_append, List.mem_append] at hx
      rcases hx with hx | hx
      · exact wc x hx hxv
      · exact pc x hx ((wa x).mpr (Or.inr hxv))
    · intro n hn
      rcases List.mem_append.mp hn with hn | hn
      · exact wd n hn
      · exact pd n hn

lemma insertNode_perm (a : RoadmapNode) (l : List RoadmapNode) :
    (insertNode a l).Perm (a :: l) := by
  induction l with
  | nil => simp [insertNode]
  | cons b bs ih =>
    by_cases h : strLe a.skill_name b.skill_name
    · simp [insertNode, h]
    · simp only [insertNode, h, if_neg, Bool.false_eq_true, not_false_iff, ite_false]
      exact ((ih.cons b).trans (List.Perm.swap a b bs))

lemma sortNodes_perm (l : List RoadmapNode) : (sortNodes l).Perm l := by
  induction l with
  | nil => simp [sortNodes]
  | cons x xs ih => exact (insertNode_perm x (sortNodes xs)).trans (ih.cons x)

lemma mem_sortNodes {l : List RoadmapNode} {n : RoadmapNode} :
    n ∈ sortNodes l ↔ n ∈ l :=
  (sortNodes_perm l).mem_iff

/-- C1: for every roadmap whose node ids are pairwise distinct (the engine
generates one fresh UUID per node), `ordered_nodes` returns a permutation of
the node list — every node appears exactly once, whatever the prev/next
pointers are (missing, dangling, cyclic, fully disconnected, or a perfect
two-node cycle where the all-nodes head fallback activates). -/
theorem linearize_covers_every_node_once (r : Roadmap)
    (hnd : (r.nodes.map (fun n => n.id)).Nodup) :
    (ordered_nodes r).Perm r.nodes := by
  have hcoh : ∀ k n, byId r.nodes k = some n → n.id = k :=
    fun k n h => (byId_coherent h).1
  have hmem : ∀ k n, byId r.nodes k = some n → n ∈ r.nodes :=
    fun k n h => (byId_coherent h).2
  have hnodes_nodup : r.nodes.Nodup := List.Nodup.of_map _ hnd
  unfold ordered_nodes orderedNodesWith
  set heads := sortNodes
    (if (r.nodes.filter
          (fun n => (n.prev_node_id.bind (byId r.nodes)).isNone)).isEmpty
     then r.nodes
     else r.nodes.filter
          (fun n => (n.prev_node_id.bind (byId r.nodes)).isNone)) with hheads
  have hheads_sub : ∀ h ∈ heads, h ∈ r.nodes := by
    intro h hh
    rw [hheads, mem_sortNodes] at hh
    split at hh
    · exact hh
    · exact (List.mem_filter.mp hh).1
  obtain ⟨pa, pb, pc, pd⟩ := processHeads_spec hcoh (r.nodes.length + 1) heads []
    (fun h hh => byId_isSome_of_mem (hheads_sub h hh))
  set P := processHeads (byId r.nodes) (r.nodes.length + 1) heads [] with hP
  set remaining := r.nodes.filter (fun n => !(P.2.contains n.id)) with hrem
  have hrem_iff : ∀ n, n ∈ remaining ↔ n ∈ r.nodes ∧ n.id ∉ P.2 := by
    intro n
    rw [hrem, List.mem_filter]
    simp
  have hout_sub : ∀ n ∈ P.1, n ∈ r.nodes := fun n hn => hmem n.id n (pd n hn)
  have hout_nodup : P.1.Nodup := List.Nodup.of_map _ pb
  have hrem_nodup : remaining.Nodup := List.Nodup.filter _ hnodes_nodup
  have hsorted_nodup : (sortNodes remaining).Nodup :=
    (sortNodes_perm remaining).nodup_iff.mpr hrem_nodup
  have hres_nodup : (P.1 ++ sortNodes remaining).Nodup := by
    rw [List.nodup_append]
    refine ⟨hout_nodup, hsorted_nodup, ?_⟩
    intro n hn hn'
    rw [mem_sortNodes, hrem_iff] at hn'
    exact hn'.2 ((pa n.id).mpr (Or.inl (List.mem_map.mpr ⟨n, hn, rfl⟩)))
  refine (List.perm_ext_iff_of_nodup hres_nodup hnodes_nodup).mpr ?_
  intro n
  constructor
  · intro hn
    rcases List.mem_append.mp hn with hn | hn
    · exact hout_sub n hn
    · rw [mem_sortNodes, hrem_iff] at hn
      exact hn.1
  · intro hn
    by_cases hvis : n.id ∈ P.2
    · have hvis' := (pa n.id).mp hvis
      have hmapmem : n.id ∈ List.map (fun n => n.id) P.1 := by
        rcases hvis' with h | h
        · exact h
        · exact absurd h (List.not_mem_nil _)
      obtain ⟨m, hm, hmid⟩ := List.mem_map.mp hmapmem
      have h1 : byId r.nodes m.id = some m := pd m hm
      have h2 : byId r.nodes n.id = some n := byId_self hnd hn
      rw [hmid, h2] at h1
      have hmn : n = m := Option.some.inj h1
      exact List.mem_append.mpr (Or.inl (hmn ▸ hm))
    · refine List.mem_append.mpr (Or.inr ?_)
      rw [mem_sortNodes, hrem_iff]
      exact ⟨hn, hvis⟩

/-- C1 witness: the perfect two-node cycle scenario — distinct ids, the
all-nodes fallback fires, the output is a permutation of the two nodes and
has length 2. -/
theorem linearize_covers_every_node_once_witness :
    (cycleRoadmap.nodes.map (fun n => n.id)).Nodup ∧
    (ordered_nodes cycleRoadmap).Perm cycleRoadmap.nodes ∧
    (ordered_nodes cycleRoadmap).length = 2 :=
  ⟨by decide, linearize_covers_every_node_once cycleRoadmap (by decide),
    by decide⟩

lemma lookupEntries_eq_some_of {entries : List (String × RoadmapNode)}
    {k : String} {n : RoadmapNode}
    (h : lookupEntries entries k = some n) : (k, n) ∈ entries := by
  unfold lookupEntries at h
  obtain ⟨p, hp, hsnd⟩ := Option.map_eq_some'.mp h
  have hpred := List.find?_some hp
  have hmem := List.mem_of_find?_eq_some hp
  rw [List.mem_reverse] at hmem
  have hk : p.1 = k := by simpa using hpred
  have : p = (k, n) := by
    rw [← hk, ← hsnd]
  rw [← this]
  exact hmem

lemma lookupEntries_eq_some_iff {entries : List (String × RoadmapNode)}
    (hnd : (entries.map Prod.fst).Nodup) {k : String} {n : RoadmapNode} :
    lookupEntries entries k = some n ↔ (k, n) ∈ entries := by
  constructor
  · exact lookupEntries_eq_some_of
  · intro hmem
    have hsome : (lookupEntries entries k).isSome := by
      unfold lookupEntries
      rw [Option.isSome_map', List.find?_isSome]
      exact ⟨(k, n), List.mem_reverse.mpr hmem, by simp⟩
    obtain ⟨m, hm⟩ := Option.isSome_iff_exists.mp hsome
    have hkm : (k, m) ∈ entries := lookupEntries_eq_some_of hm
    have : (k, m) = (k, n) :=
      List.inj_on_of_nodup_map hnd hkm hmem rfl
    rw [hm]
    rw [Prod.mk.injEq] at this
    rw [this.2]

lemma lookupEntries_eq_none_iff {entries : List (String × RoadmapNode)}
    {k : String} :
    lookupEntries entries k = none ↔ ∀ p ∈ entries, p.1 ≠ k := by
  unfold lookupEntries
  rw [Option.map_eq_none', List.find?_eq_none]
  constructor
  · intro h p hp
    have := h p (List.mem_reverse.mpr hp)
    simpa using this
  · intro h p hp
    have := h p (List.mem_reverse.mp hp)
    simpa using this

lemma lookupEntries_perm {e1 e2 : List (String × RoadmapNode)}
    (hperm : e1.Perm e2) (hnd : (e1.map Prod.fst).Nodup) :
    lookupEntries e1 = lookupEntries e2 := by
  have hnd2 : (e2.map Prod.fst).Nodup := ((hperm.map Prod.fst).nodup_iff).mp hnd
  funext k
  cases h : lookupEntries e1 k with
  | none =>
    rw [lookupEntries_eq_none_iff] at h
    symm
    rw [lookupEntries_eq_none_iff]
    exact fun p hp => h p (hperm.mem_iff.mpr hp)
  | some n =>
    have := (lookupEntries_eq_some_iff hnd).mp h
    symm
    rw [lookupEntries_eq_some_iff hnd2]
    exact hperm.subset this

/-- The straight three-node chain of the spec scenario:
A(prev=null,next=B), B(prev=A,next=C), C(prev=B,next=null). -/
def chainRoadmap : Roadmap :=
  { id := some "r2", user_id := "u", skill_name := "s"
    nodes := [mkNode "a" "A" none (some "b"),
              mkNode "b" "B" (some "a") (some "c"),
              mkNode "c" "C" (some "b") none]
    created_at := 0, updated_at := 0 }

/-- C2: the linearization is deterministic.  `ordered_nodes` reads its hash
map only through `get`, sorts head candidates and the orphaned remainder by
skill name, and therefore does not depend on the iteration order of the
`by_id` map: running it with the map's entries presented in *any* order (any
permutation of the canonical entry list) produces exactly the output of
`ordered_nodes` — in particular two calls on the same unmodified roadmap
value yield the identical ordering. -/
theorem linearize_deterministic (r : Roadmap)
    (entries : List (String × RoadmapNode))
    (hperm : entries.Perm (nodeEntries r.nodes))
    (hnd : (r.nodes.map (fun n => n.id)).Nodup) :
    orderedNodesWith (lookupEntries entries) r.nodes = ordered_nodes r := by
  have hkeys : ((nodeEntries r.nodes).map Prod.fst).Nodup := by
    unfold nodeEntries
    rw [List.map_map]
    exact hnd
  have hkeys1 : (entries.map Prod.fst).Nodup :=
    ((hperm.map Prod.fst).nodup_iff).mpr hkeys
  unfold ordered_nodes byId
  rw [lookupEntries_perm hperm hkeys1]

/-- C2 witness: on the concrete three-node chain, presenting the `by_id`
entries in reversed order yields the same linearization. -/
theorem linearize_deterministic_witness :
    ((nodeEntries chainRoadmap.nodes).reverse.Perm
      (nodeEntries chainRoadmap.nodes)) ∧
    (chainRoadmap.nodes.map (fun n => n.id)).Nodup ∧
    orderedNodesWith (lookupEntries ((nodeEntries chainRoadmap.nodes).reverse))
      chainRoadmap.nodes = ordered_nodes chainRoadmap :=
  ⟨List.reverse_perm _, by decide,
   linearize_deterministic chainRoadmap _ (List.reverse_perm _) (by decide)⟩

/-- Trimming a character list at both ends.  Rust's `str::trim` strips
Unicode `White_Space`; every whitespace that appears in this development is
ASCII, where the two notions agree. -/
def trimChars (l : List Char) : List Char :=
  ((l.dropWhile Char.isWhitespace).reverse.dropWhile Char.isWhitespace).reverse

/-- `s.trim().to_string()` from the reference-resolution loop. -/
def strTrim (s : String) : String := ⟨trimChars s.data⟩

/-- The entry sequence inserted into the `name_to_id` map in
`generate_roadmap_with_llm` (`.map(|n| (n.skill_name.clone(), n.id.clone()))`). -/
def nameEntries (nodes : List RoadmapNode) : List (String × String) :=
  nodes.map (fun n => (n.skill_name, n.id))

/-- `name_to_id.get(s)` — last insert wins on duplicate skill names. -/
def nameToId (nodes : List RoadmapNode) (s : String) : Option String :=
  ((nameEntries nodes).reverse.find? (fun p => p.1 == s)).map Prod.snd

/-- The `map_ref` closure: resolve a referenced name to the generated id,
or keep the string when there is no match. -/
def map_ref (nodes : List RoadmapNode) (s : String) : String :=
  (nameToId nodes s).getD s

/-- Resolution of an optional prev/next reference:
`.as_ref().map(|s| s.trim().to_string()).filter(|s| !s.is_empty()).map(|s| map_ref(&s))`. -/
def resolveOptRef (nodes : List RoadmapNode) (o : Option String) :
    Option String :=
  ((o.map strTrim).filter (fun s => !s.data.isEmpty)).map (map_ref nodes)

/-- The per-node body of the resolution loop in `generate_roadmap_with_llm`. -/
def resolveNode (nodes : List RoadmapNode) (n : RoadmapNode) : RoadmapNode :=
  { n with
    prerequisites := n.prerequisites.map (map_ref nodes)
    prev_node_id := resolveOptRef nodes n.prev_node_id
    next_node_id := resolveOptRef nodes n.next_node_id }

/-- The whole reference-resolution pass (`for node in &mut nodes_out.nodes`
with the `name_to_id` snapshot built beforehand). -/
def resolveReferences (nodes : List RoadmapNode) : List RoadmapNode :=
  nodes.map (resolveNode nodes)

lemma nameToId_eq_some_of {nodes : List RoadmapNode} {s i : String}
    (h : nameToId nodes s = some i) :
    ∃ m ∈ nodes, m.skill_name = s ∧ m.id = i := by
  unfold nameToId at h
  obtain ⟨p, hp, hsnd⟩ := Option.map_eq_some'.mp h
  have hpred := List.find?_some hp
  have hmem := List.mem_of_find?_eq_some hp
  rw [List.mem_reverse] at hmem
  unfold nameEntries at hmem
  obtain ⟨m, hm, hpm⟩ := List.mem_map.mp hmem
  subst hpm
  simp only at hsnd hpred
  exact ⟨m, hm, eq_of_beq hpred, hsnd⟩

lemma nameToId_eq_none_iff {nodes : List RoadmapNode} {s : String} :
    nameToId nodes s = none ↔ ∀ m ∈ nodes, m.skill_name ≠ s := by
  unfold nameToId
  rw [Option.map_eq_none', List.find?_eq_none]
  constructor
  · intro h m hm
    have := h (m.skill_name, m.id)
      (List.mem_reverse.mpr (List.mem_map.mpr ⟨m, hm, rfl⟩))
    simpa using this
  · intro h p hp
    rw [List.mem_reverse] at hp
    obtain ⟨m, hm, hpm⟩ := List.mem_map.mp hp
    subst hpm
    simpa using h m hm

lemma nameToId_self {nodes : List RoadmapNode}
    (hnd : (nodes.map (fun n => n.skill_name)).Nodup)
    {m : RoadmapNode} (hm : m ∈ nodes) :
    nameToId nodes m.skill_name = some m.id := by
  have hsome : (nameToId nodes m.skill_name).isSome := by
    unfold nameToId
    rw [Option.isSome_map', List.find?_isSome]
    exact ⟨(m.skill_name, m.id),
      List.mem_reverse.mpr (List.mem_map.mpr ⟨m, hm, rfl⟩), by simp⟩
  obtain ⟨i, hi⟩ := Option.isSome_iff_exists.mp hsome
  obtain ⟨m', hm', hms, hmi⟩ := nameToId_eq_some_of hi
  have : m' = m := List.inj_on_of_nodup_map hnd hm' hm hms
  rw [hi, ← hmi, this]

lemma map_ref_matched {nodes : List RoadmapNode}
    (hnd : (nodes.map (fun n => n.skill_name)).Nodup)
    {m : RoadmapNode} (hm : m ∈ nodes) :
    map_ref nodes m.skill_name = m.id := by
  unfold map_ref
  rw [nameToId_self hnd hm]
  rfl

lemma map_ref_unmatched {nodes : List RoadmapNode} {s : String}
    (h : ∀ m ∈ nodes, m.skill_name ≠ s) :
    map_ref nodes s = s := by
  unfold map_ref
  rw [nameToId_eq_none_iff.mpr h]
  rfl

lemma resolveOptRef_some_empty {nodes : List RoadmapNode} {s : String}
    (h : (strTrim s).data.isEmpty = true) :
    resolveOptRef nodes (some s) = none := by
  simp [resolveOptRef, Option.filter, h]

lemma resolveOptRef_some_nonempty {nodes : List RoadmapNode} {s : String}
    (h : (strTrim s).data.isEmpty = false) :
    resolveOptRef nodes (some s) = some (map_ref nodes (strTrim s)) := by
  simp [resolveOptRef, Option.filter, h]

/-- A node whose `prev_node_id` is whitespace only. -/
def wsPrevNode : RoadmapNode := mkNode "d1" "D" (some "   ") none

/-- C3 counterexample: a prev reference consisting of whitespace matches no
node's skill name, yet resolution does *not* leave it as the raw string —
the trim-then-filter chain nulls it out, so the reference is dropped,
contradicting the claim that every unmatched referenced name is kept
verbatim rather than dropped. -/
theorem resolve_refs_whitespace_prev_dropped :
    (resolveReferences [wsPrevNode]).map (fun n => n.prev_node_id) = [none] ∧
    ¬ ((resolveReferences [wsPrevNode]).map (fun n => n.prev_node_id)
        = [some "   "]) := by
  decide

/-- C3 (amended): over nodes with pairwise-distinct skill names, reference
resolution rewrites every matched reference to the matching node's generated
id, where prev/next references are matched *after trimming*; an unmatched
prerequisite is kept as the raw string; an unmatched non-whitespace
prev/next is kept as its trimmed string; a whitespace-only prev/next is set
to null (dropped) rather than kept. -/
theorem resolve_refs_resolution_spec (nodes : List RoadmapNode)
    (hnd : (nodes.map (fun n => n.skill_name)).Nodup)
    (i : Nat) (n n' : RoadmapNode)
    (hn : nodes[i]? = some n)
    (hn' : (resolveReferences nodes)[i]? = some n') :
    (∀ (j : Nat) (p : String), n.prerequisites[j]? = some p →
       (∀ m ∈ nodes, m.skill_name = p → n'.prerequisites[j]? = some m.id) ∧
       ((∀ m ∈ nodes, m.skill_name ≠ p) → n'.prerequisites[j]? = some p)) ∧
    (n.prev_node_id = none → n'.prev_node_id = none) ∧
    (∀ (s : String), n.prev_node_id = some s → (strTrim s).data.isEmpty = true →
       n'.prev_node_id = none) ∧
    (∀ (s : String), n.prev_node_id = some s → (strTrim s).data.isEmpty = false →
       (∀ m ∈ nodes, m.skill_name = strTrim s →
          n'.prev_node_id = some m.id) ∧
       ((∀ m ∈ nodes, m.skill_name ≠ strTrim s) →
          n'.prev_node_id = some (strTrim s))) ∧
    (n.next_node_id = none → n'.next_node_id = none) ∧
    (∀ (s : String), n.next_node_id = some s → (strTrim s).data.isEmpty = true →
       n'.next_node_id = none) ∧
    (∀ (s : String), n.next_node_id = some s → (strTrim s).data.isEmpty = false →
       (∀ m ∈ nodes, m.skill_name = strTrim s →
          n'.next_node_id = some m.id) ∧
       ((∀ m ∈ nodes, m.skill_name ≠ strTrim s) →
          n'.next_node_id = some (strTrim s))) := by
  have hres : (resolveReferences nodes)[i]? = some (resolveNode nodes n) := by
    unfold resolveReferences
    rw [List.getElem?_map, hn]
    rfl
  rw [hres] at hn'
  have hn'eq : n' = resolveNode nodes n := (Option.some.inj hn').symm
  subst hn'eq
  refine ⟨?_, ?_, ?_, ?_, ?_, ?_, ?_⟩
  · intro j p hp
    have hj : (resolveNode nodes n).prerequisites[j]? =
        some (map_ref nodes p) := by
      show (n.prerequisites.map (map_ref nodes))[j]? = _
      rw [List.getElem?_map, hp]
      rfl
    constructor
    · intro m hm hms
      rw [hj, ← hms, map_ref_matched hnd hm]
    · intro hnone
      rw [hj, map_ref_unmatched hnone]
  · intro h
    show resolveOptRef nodes n.prev_node_id = none
    rw [h]
    rfl
  · intro s hs hempty
    show resolveOptRef nodes n.prev_node_id = none
    rw [hs, resolveOptRef_some_empty hempty]
  · intro s hs hne
    constructor
    · intro m hm hms
      show resolveOptRef nodes n.prev_node_id = some m.id
      rw [hs, resolveOptRef_some_nonempty hne, ← hms, map_ref_matched hnd hm]
    · intro hnone
      show resolveOptRef nodes n.prev_node_id = some (strTrim s)
      rw [hs, resolveOptRef_some_nonempty hne, map_ref_unmatched hnone]
  · intro h
    show resolveOptRef nodes n.next_node_id = none
    rw [h]
    rfl
  · intro s hs hempty
    show resolveOptRef nodes n.next_node_id = none
    rw [hs, resolveOptRef_some_empty hempty]
  · intro s hs hne
    constructor
    · intro m hm hms
      show resolveOptRef nodes n.next_node_id = some m.id
      rw [hs, resolveOptRef_some_nonempty hne, ← hms, map_ref_matched hnd hm]
    · intro hnone
      show resolveOptRef nodes n.next_node_id = some (strTrim s)
      rw [hs, resolveOptRef_some_nonempty hne, map_ref_unmatched hnone]

/-- First node of the resolution scenario: prerequisites name a node that
exists ("Advanced") and one that does not ("Linear Algebra"). -/
def demoNodeBasics : RoadmapNode :=
  { id := "id-a", skill_name := "Basics", description := "", resources := []
    prerequisites := ["Linear Algebra", "Advanced"], is_completed := false
    prev_node_id := none, next_node_id := some "Advanced" }

/-- Second node of the resolution scenario. -/
def demoNodeAdvanced : RoadmapNode := mkNode "id-b" "Advanced" (some "Basics") none

/-- The node set of the resolution scenario. -/
def demoResolveNodes : List RoadmapNode := [demoNodeBasics, demoNodeAdvanced]

/-- C3 witness: on the concrete scenario the unmatched prerequisite
"Linear Algebra" survives verbatim and the matched prerequisite "Advanced"
is rewritten to the generated id "id-b". -/
theorem resolve_refs_resolution_spec_witness :
    (demoResolveNodes.map (fun n => n.skill_name)).Nodup ∧
    (resolveNode demoResolveNodes demoNodeBasics).prerequisites[0]?
      = some "Linear Algebra" ∧
    (resolveNode demoResolveNodes demoNodeBasics).prerequisites[1]?
      = some "id-b" :=
  ⟨by decide,
   ((resolve_refs_resolution_spec demoResolveNodes (by decide) 0
      demoNodeBasics (resolveNode demoResolveNodes demoNodeBasics) rfl
      rfl).1 0 "Linear Algebra" rfl).2 (by decide),
   ((resolve_refs_resolution_spec demoResolveNodes (by decide) 0
      demoNodeBasics (resolveNode demoResolveNodes demoNodeBasics) rfl
      rfl).1 1 "Advanced" rfl).1 demoNodeAdvanced (by decide) rfl⟩

/-- Mirrors `models.rs::CoursesDataWithEmbeddings` (`Option<RecordId>` as
`Option String`; the `Vec<f32>` embedding payload is opaque to every claim
here and carried as an abstract integer list, since no claim inspects the
numeric values). -/
structure CoursesDataWithEmbeddings where
  id : Option String
  title : String
  description : String
  channel_name : String
  published_date : String
  skill_path : String
  level : String
  ctype : String
  content : String
  topic : String
  prerequisite_topics : List String
  embedding : List Int
deriving DecidableEq, Repr

/-- Mirrors `models.rs::CoursesDataClean` — no record id, no embedding. -/
structure CoursesDataClean where
  title : String
  description : String
  channel_name : String
  published_date : String
  skill_path : String
  level : String
  ctype : String
  content : String
  topic : String
  prerequisite_topics : List String
deriving DecidableEq, Repr

/-- `CoursesDataClean::from` in `models.rs`. -/
def cleanCourse (c : CoursesDataWithEmbeddings) : CoursesDataClean :=
  { title := c.title, description := c.description
    channel_name := c.channel_name, published_date := c.published_date
    skill_path := c.skill_path, level := c.level, ctype := c.ctype
    content := c.content, topic := c.topic
    prerequisite_topics := c.prerequisite_topics }

/-- `HashMap::insert` on the map's *contents*, viewed as an association list
ordered by first insertion: an existing key keeps its position and gets the
new value, a new key is appended.  (Iteration order of the real map is a
separate, unspecified permutation of these contents.) -/
def hmInsert (m : List (String × CoursesDataWithEmbeddings)) (k : String)
    (v : CoursesDataWithEmbeddings) :
    List (String × CoursesDataWithEmbeddings) :=
  if m.any (fun p => p.1 == k) then
    m.map (fun p => if p.1 == k then (k, v) else p)
  else
    m ++ [(k, v)]

/-- The inner `for course in courses` loop of
`search_vector_db_multi_query`: hits with an id are inserted keyed by id,
hits without an id are skipped. -/
def insertCourses (m : List (String × CoursesDataWithEmbeddings))
    (courses : List CoursesDataWithEmbeddings) :
    List (String × CoursesDataWithEmbeddings) :=
  courses.foldl
    (fun m c =>
      match c.id with
      | some i => hmInsert m i c
      | none => m)
    m

/-- The `all_results` merge map after all queries are processed, as a
function of the per-query search results (the store's answers, one list per
query string). -/
def mergeCourses (results : List (List CoursesDataWithEmbeddings)) :
    List (String × CoursesDataWithEmbeddings) :=
  results.foldl insertCourses []

/-- The tail of `search_vector_db_multi_query`:
`all_results.into_values().map(CoursesDataClean::from)` followed by
`truncate(20)`.  `iter` is the map's contents in the (unspecified)
iteration order chosen by `into_values`; theorems quantify over every
permutation of the merge-map contents. -/
def search_vector_db_multi_query
    (iter : List (String × CoursesDataWithEmbeddings)) :
    List CoursesDataClean :=
  (iter.map (fun p => cleanCourse p.2)).take 20

lemma hmInsert_keys_nodup {m : List (String × CoursesDataWithEmbeddings)}
    {k : String} {v : CoursesDataWithEmbeddings}
    (h : (m.map Prod.fst).Nodup) :
    ((hmInsert m k v).map Prod.fst).Nodup := by
  unfold hmInsert
  split
  · have : (m.map (fun p => if p.1 == k then (k, v) else p)).map Prod.fst
        = m.map Prod.fst := by
      rw [List.map_map]
      refine List.map_congr_left ?_
      intro p _
      by_cases hp : p.1 == k
      · simp only [Function.comp_apply, hp, if_pos]
        exact (eq_of_beq hp).symm
      · simp only [Function.comp_apply, hp, if_neg]
        rfl
    rw [this]
    exact h
  · rename_i hany
    rw [List.map_append, List.nodup_append]
    refine ⟨h, by simp, ?_⟩
    intro x hx hx'
    simp only [List.map_cons, List.map_nil, List.mem_singleton] at hx'
    subst hx'
    rw [List.mem_map] at hx
    obtain ⟨p, hp, hpk⟩ := hx
    exact hany (List.any_eq_true.mpr ⟨p, hp, by simp [hpk]⟩)

lemma insertCourses_keys_nodup :
    ∀ (courses : List CoursesDataWithEmbeddings)
      (m : List (String × CoursesDataWithEmbeddings)),
      (m.map Prod.fst).Nodup → ((insertCourses m courses).map Prod.fst).Nodup := by
  intro courses
  induction courses with
  | nil => intro m h; exact h
  | cons c cs ih =>
    intro m h
    show ((insertCourses (match c.id with
      | some i => hmInsert m i c
      | none => m) cs).map Prod.fst).Nodup
    cases c.id with
    | none => exact ih m h
    | some i => exact ih (hmInsert m i c) (hmInsert_keys_nodup h)

lemma mergeCourses_keys_nodup (results : List (List CoursesDataWithEmbeddings)) :
    ((mergeCourses results).map Prod.fst).Nodup := by
  have : ∀ (rs : List (List CoursesDataWithEmbeddings))
      (m : List (String × CoursesDataWithEmbeddings)),
      (m.map Prod.fst).Nodup → ((rs.foldl insertCourses m).map Prod.fst).Nodup := by
    intro rs
    induction rs with
    | nil => intro m h; exact h
    | cons r rs ih =>
      intro m h
      exact ih (insertCourses m r) (insertCourses_keys_nodup r m h)
  exact this results [] (by simp)

lemma hmInsert_vals {m : List (String × CoursesDataWithEmbeddings)}
    {k : String} {v : CoursesDataWithEmbeddings}
    (hv : v.id = some k) (h : ∀ p ∈ m, p.2.id = some p.1) :
    ∀ p ∈ hmInsert m k v, p.2.id = some p.1 := by
  unfold hmInsert
  split
  · intro p hp
    rw [List.mem_map] at hp
    obtain ⟨q, hq, hqp⟩ := hp
    by_cases hk : q.1 == k
    · rw [← hqp]
      simp only [hk, if_pos]
      exact hv
    · rw [← hqp]
      simp only [hk, if_neg]
      exact h q hq
  · intro p hp
    rcases List.mem_append.mp hp with hp | hp
    · exact h p hp
    · simp only [List.mem_singleton] at hp
      subst hp
      exact hv

lemma insertCourses_vals :
    ∀ (courses : List CoursesDataWithEmbeddings)
      (m : List (String × CoursesDataWithEmbeddings)),
      (∀ p ∈ m, p.2.id = some p.1) →
      ∀ p ∈ insertCourses m courses, p.2.id = some p.1 := by
  intro courses
  induction courses with
  | nil => intro m h; exact h
  | cons c cs ih =>
    intro m h
    show ∀ p ∈ insertCourses (match c.id with
      | some i => hmInsert m i c
      | none => m) cs, p.2.id = some p.1
    cases hc : c.id with
    | none => exact ih m h
    | some i => exact ih (hmInsert m i c) (hmInsert_vals hc h)

lemma mergeCourses_vals (results : List (List CoursesDataWithEmbeddings)) :
    ∀ p ∈ mergeCourses results, p.2.id = some p.1 := by
  have : ∀ (rs : List (List CoursesDataWithEmbeddings))
      (m : List (String × CoursesDataWithEmbeddings)),
      (∀ p ∈ m, p.2.id = some p.1) →
      ∀ p ∈ rs.foldl insertCourses m, p.2.id = some p.1 := by
    intro rs
    induction rs with
    | nil => intro m h; exact h
    | cons r rs ih =>
      intro m h
      exact ih (insertCourses m r) (insertCourses_vals r m h)
  exact this results [] (by simp)

/-- C4: for every list of per-query search results and every iteration
order of the merge map, multi-query retrieval returns at most 20 candidate
resources, and the returned candidates are the cleaned images of underlying
corpus records with pairwise-distinct record ids (deduplication by id via
the merge map). -/
theorem retrieve_bounded_and_deduped
    (results : List (List CoursesDataWithEmbeddings))
    (iter : List (String × CoursesDataWithEmbeddings))
    (hperm : iter.Perm (mergeCourses results)) :
    (search_vector_db_multi_query iter).length ≤ 20 ∧
    ∃ recs : List (String × CoursesDataWithEmbeddings),
      (recs.map Prod.fst).Nodup ∧
      (∀ p ∈ recs, p.2.id = some p.1) ∧
      recs.map (fun p => cleanCourse p.2) = search_vector_db_multi_query iter := by
  constructor
  · exact List.length_take_le 20 _
  · refine ⟨iter.take 20, ?_, ?_, ?_⟩
    · have hiterkeys : (iter.map Prod.fst).Nodup :=
        ((hperm.map Prod.fst).nodup_iff).mpr (mergeCourses_keys_nodup results)
      rw [List.map_take]
      exact hiterkeys.sublist ((iter.map Prod.fst).take_sublist 20)
    · intro p hp
      exact mergeCourses_vals results p
        (hperm.subset (List.take_subset 20 iter hp))
    · unfold search_vector_db_multi_query
      rw [List.map_take]

/-- Two single-hit query results over distinct corpus records. -/
def mkCourseNamed (s : String) : CoursesDataWithEmbeddings :=
  { id := some s, title := s, description := "", channel_name := ""
    published_date := "", skill_path := "", level := "", ctype := ""
    content := "", topic := "", prerequisite_topics := [], embedding := [] }

/-- Two queries, one hit each. -/
def demoTwoResults : List (List CoursesDataWithEmbeddings) :=
  [[mkCourseNamed "cA"], [mkCourseNamed "cB"]]

/-- C4 witness: a concrete two-query retrieval, with the merge map iterated
in reversed order, stays within the cap and is deduplicated. -/
theorem retrieve_bounded_and_deduped_witness :
    ((mergeCourses demoTwoResults).reverse.Perm (mergeCourses demoTwoResults)) ∧
    ((search_vector_db_multi_query ((mergeCourses demoTwoResults).reverse)).length ≤ 20 ∧
     ∃ recs : List (String × CoursesDataWithEmbeddings),
       (recs.map Prod.fst).Nodup ∧
       (∀ p ∈ recs, p.2.id = some p.1) ∧
       recs.map (fun p => cleanCourse p.2) =
         search_vector_db_multi_query ((mergeCourses demoTwoResults).reverse)) :=
  ⟨List.reverse_perm _,
   retrieve_bounded_and_deduped demoTwoResults _ (List.reverse_perm _)⟩

/-- Twenty-five distinct corpus record ids. -/
def idNames25 : List String :=
  ["c01", "c02", "c03", "c04", "c05", "c06", "c07", "c08", "c09", "c10",
   "c11", "c12", "c13", "c14", "c15", "c16", "c17", "c18", "c19", "c20",
   "c21", "c22", "c23", "c24", "c25"]

/-- Twenty-five queries, one distinct hit each (well within the per-query
top-5 limit), so the merge map holds 25 entries and the truncation to 20
actually cuts. -/
def demoManyResults : List (List CoursesDataWithEmbeddings) :=
  idNames25.map (fun s => [mkCourseNamed s])

/-- C5 counterexample: the code fixes no truncation order.  The merge map's
contents admit more than one iteration order (here: first-insertion order
and its reverse, both permutations of the same contents, as
`std::collections::HashMap::into_values` may present them), and the two
orders make the truncation keep *different* candidate sets — so "truncation
happens in insertion order of the merge map" is not a property the code
guarantees. -/
theorem truncation_order_dependent :
    ((mergeCourses demoManyResults).reverse.Perm (mergeCourses demoManyResults)) ∧
    search_vector_db_multi_query ((mergeCourses demoManyResults).reverse)
      ≠ search_vector_db_multi_query (mergeCourses demoManyResults) :=
  ⟨List.reverse_perm _, by decide⟩

/-- C5 (amended): truncation of the deduplicated candidate set happens in
the merge map's (unspecified) iteration order — some permutation of the
deduplicated contents, with no insertion-order or similarity-rank guarantee.
What is guaranteed: the output length is exactly the smaller of 20 and the
deduplicated count, every output candidate is the cleaned image of a merge
entry, and whenever the deduplicated count is at most 20 nothing is cut and
the output is a permutation of all cleaned merge values. -/
theorem truncation_arbitrary_order_spec
    (results : List (List CoursesDataWithEmbeddings))
    (iter : List (String × CoursesDataWithEmbeddings))
    (hperm : iter.Perm (mergeCourses results)) :
    (search_vector_db_multi_query iter).length
      = min 20 (mergeCourses results).length ∧
    (∀ c ∈ search_vector_db_multi_query iter,
       ∃ p ∈ mergeCourses results, cleanCourse p.2 = c) ∧
    ((mergeCourses results).length ≤ 20 →
       (search_vector_db_multi_query iter).Perm
         ((mergeCourses results).map (fun p => cleanCourse p.2))) := by
  refine ⟨?_, ?_, ?_⟩
  · unfold search_vector_db_multi_query
    rw [List.length_take, List.length_map, hperm.length_eq]
  · intro c hc
    have hc' : c ∈ iter.map (fun p => cleanCourse p.2) :=
      List.take_subset 20 _ hc
    obtain ⟨p, hp, hpc⟩ := List.mem_map.mp hc'
    exact ⟨p, hperm.subset hp, hpc⟩
  · intro hle
    have hlen : (iter.map (fun p => cleanCourse p.2)).length ≤ 20 := by
      rw [List.length_map, hperm.length_eq]
      exact hle
    unfold search_vector_db_multi_query
    rw [List.take_of_length_le hlen]
    exact hperm.map (fun p => cleanCourse p.2)

/-- C5 witness: on the two-record merge map iterated in reverse, the
amended truncation contract holds concretely. -/
theorem truncation_arbitrary_order_spec_witness :
    ((mergeCourses demoTwoResults).reverse.Perm (mergeCourses demoTwoResults)) ∧
    ((search_vector_db_multi_query ((mergeCourses demoTwoResults).reverse)).length
       = min 20 (mergeCourses demoTwoResults).length ∧
     (∀ c ∈ search_vector_db_multi_query ((mergeCourses demoTwoResults).reverse),
        ∃ p ∈ mergeCourses demoTwoResults, cleanCourse p.2 = c) ∧
     ((mergeCourses demoTwoResults).length ≤ 20 →
        (search_vector_db_multi_query ((mergeCourses demoTwoResults).reverse)).Perm
          ((mergeCourses demoTwoResults).map (fun p => cleanCourse p.2)))) :=
  ⟨List.reverse_perm _,
   truncation_arbitrary_order_spec demoTwoResults _ (List.reverse_perm _)⟩

/-- The node mutation of `toggle_node_completion`:
`nodes.iter_mut().find(|n| n.id == node_id)` flips `is_completed` on the
*first* matching node only. -/
def toggleNodes : List RoadmapNode → String → List RoadmapNode
  | [], _ => []
  | n :: ns, nid =>
    if n.id == nid then { n with is_completed := !n.is_completed } :: ns
    else n :: toggleNodes ns nid

/-- The pure aggregate update of `toggle_node_completion`: flip the first
matching node (if any) and refresh `updated_at` to the current instant
(`Utc::now()`), leaving every other field alone; the whole record is then
written back. -/
def toggleRoadmap (r : Roadmap) (node_id : String) (now : Int) : Roadmap :=
  { r with nodes := toggleNodes r.nodes node_id, updated_at := now }

/-- `server_functions.rs::toggle_node_completion` against a record store
modelled as a lookup: a missing roadmap id (including an unparsable one,
which can never name a stored record) is an error; otherwise the read
aggregate is toggled and written back whole. -/
def toggle_node_completion (store : String → Option Roadmap)
    (roadmap_id node_id : String) (now : Int) : Except String Roadmap :=
  match store roadmap_id with
  | none => Except.error "Roadmap not found"
  | some r => Except.ok (toggleRoadmap r node_id now)

/-- The progress aggregation computed at read time by the presentation of a
roadmap (`RoadmapProgressPill` in `roadmap_view.rs`): completed count and
total count. -/
def progress (r : Roadmap) : Nat × Nat :=
  ((r.nodes.filter (fun n => n.is_completed)).length, r.nodes.length)

lemma toggleNodes_not_mem {ns : List RoadmapNode} {nid : String}
    (h : nid ∉ ns.map (fun n => n.id)) : toggleNodes ns nid = ns := by
  induction ns with
  | nil => rfl
  | cons n ns ih =>
    simp only [List.map_cons, List.mem_cons] at h
    push_neg at h
    have hne : (n.id == nid) = false := beq_eq_false_iff_ne.mpr (fun e => h.1 e.symm)
    simp only [toggleNodes, hne, Bool.false_eq_true, if_neg, not_false_iff]
    rw [ih h.2]

lemma toggleNodes_toggleNodes (ns : List RoadmapNode) (nid : String) :
    toggleNodes (toggleNodes ns nid) nid = ns := by
  induction ns with
  | nil => rfl
  | cons n ns ih =>
    by_cases h : (n.id == nid) = true
    · simp [toggleNodes, h, Bool.not_not]
    · simp only [Bool.not_eq_true] at h
      simp [toggleNodes, h, ih]

/-- C6: toggling completion is its own inverse — toggling the same node id
twice (at any two instants) returns every `is_completed` flag, in
particular the targeted node's, to its original value, and leaves the
progress aggregation (completed count, total count) unchanged. -/
theorem toggle_involutive (r : Roadmap) (nid : String) (t1 t2 : Int)
    (h : nid ∈ r.nodes.map (fun n => n.id)) :
    ((toggleRoadmap (toggleRoadmap r nid t1) nid t2).nodes.map
        (fun n => (n.id, n.is_completed))
      = r.nodes.map (fun n => (n.id, n.is_completed))) ∧
    progress (toggleRoadmap (toggleRoadmap r nid t1) nid t2) = progress r := by
  have hnn : (toggleRoadmap (toggleRoadmap r nid t1) nid t2).nodes = r.nodes :=
    toggleNodes_toggleNodes r.nodes nid
  constructor
  · rw [hnn]
  · unfold progress
    rw [hnn]

/-- C6 witness: double toggle of node "a" on the concrete chain roadmap. -/
theorem toggle_involutive_witness :
    ("a" ∈ chainRoadmap.nodes.map (fun n => n.id)) ∧
    (((toggleRoadmap (toggleRoadmap chainRoadmap "a" 5) "a" 9).nodes.map
        (fun n => (n.id, n.is_completed))
      = chainRoadmap.nodes.map (fun n => (n.id, n.is_completed))) ∧
     progress (toggleRoadmap (toggleRoadmap chainRoadmap "a" 5) "a" 9)
       = progress chainRoadmap) :=
  ⟨by decide, toggle_involutive chainRoadmap "a" 5 9 (by decide)⟩

lemma toggleNodes_mem_spec {ns : List RoadmapNode} {nid : String}
    (h : nid ∈ ns.map (fun n => n.id)) :
    ∃ (i : Nat) (m : RoadmapNode), ns[i]? = some m ∧ m.id = nid ∧
      (toggleNodes ns nid)[i]?
        = some { m with is_completed := !m.is_completed } ∧
      ∀ j, j ≠ i → (toggleNodes ns nid)[j]? = ns[j]? := by
  induction ns with
  | nil => simp at h
  | cons n ns ih =>
    by_cases hn : (n.id == nid) = true
    · refine ⟨0, n, by simp, eq_of_beq hn, ?_, ?_⟩
      · simp [toggleNodes, hn]
      · intro j hj
        cases j with
        | zero => exact absurd rfl hj
        | succ k => simp [toggleNodes, hn]
    · have h286 : (n.id == nid) = false := by
        simpa using hn
      have htail : nid ∈ ns.map (fun n => n.id) := by
        simp only [List.map_cons, List.mem_cons] at h
        rcases h with h | h
        · exact absurd (beq_iff_eq.mpr h.symm) hn
        · exact h
      obtain ⟨i, m, hm, hmid, hflip, hoth⟩ := ih htail
      refine ⟨i + 1, m, ?_, hmid, ?_, ?_⟩
      · simpa using hm
      · simp only [toggleNodes, hn, Bool.false_eq_true, if_neg, not_false_iff]
        simpa using hflip
      · intro j hj
        cases j with
        | zero => simp [toggleNodes, hn]
        | succ k =>
          have hk : k ≠ i := fun e => hj (by rw [e])
          simp only [toggleNodes, hn, Bool.false_eq_true, if_neg, not_false_iff]
          simpa using hoth k hk

/-- C7: the three behaviours of `toggle_node_completion` — a missing
roadmap id is an error; a stored roadmap is toggled and written back; when
the node id matches no node every completion flag (indeed the whole node
list) is untouched, a silent no-op; when it matches, exactly one node (the
first match) has its flag flipped and every other position is unchanged. -/
theorem toggle_cases_spec (store : String → Option Roadmap)
    (rid nid : String) (now : Int) :
    (store rid = none →
       toggle_node_completion store rid nid now
         = Except.error "Roadmap not found") ∧
    (∀ r, store rid = some r →
       toggle_node_completion store rid nid now
         = Except.ok (toggleRoadmap r nid now) ∧
       ((nid ∉ r.nodes.map (fun n => n.id)) →
          (toggleRoadmap r nid now).nodes = r.nodes) ∧
       (nid ∈ r.nodes.map (fun n => n.id) →
          ∃ (i : Nat) (m : RoadmapNode), r.nodes[i]? = some m ∧ m.id = nid ∧
            (toggleRoadmap r nid now).nodes[i]?
              = some { m with is_completed := !m.is_completed } ∧
            ∀ j, j ≠ i →
              (toggleRoadmap r nid now).nodes[j]? = r.nodes[j]?)) := by
  constructor
  · intro h
    simp [toggle_node_completion, h]
  · intro r hr
    refine ⟨by simp [toggle_node_completion, hr], ?_, ?_⟩
    · intro h
      exact toggleNodes_not_mem h
    · intro h
      exact toggleNodes_mem_spec h

/-- A one-roadmap record store. -/
def demoStore : String → Option Roadmap :=
  fun s => if s == "rm" then some chainRoadmap else none

/-- C7 witness: on the concrete store — unknown roadmap id errors, a toggle
of node "a" flips exactly that node and leaves positions 1 and 2 alone. -/
theorem toggle_cases_spec_witness :
    toggle_node_completion demoStore "zz" "a" 3
      = Except.error "Roadmap not found" ∧
    toggle_node_completion demoStore "rm" "a" 3
      = Except.ok (toggleRoadmap chainRoadmap "a" 3) ∧
    (∃ (i : Nat) (m : RoadmapNode), chainRoadmap.nodes[i]? = some m ∧ m.id = "a" ∧
       (toggleRoadmap chainRoadmap "a" 3).nodes[i]?
         = some { m with is_completed := !m.is_completed } ∧
       ∀ j, j ≠ i →
         (toggleRoadmap chainRoadmap "a" 3).nodes[j]? = chainRoadmap.nodes[j]?) :=
  ⟨(toggle_cases_spec demoStore "zz" "a" 3).1 rfl,
   ((toggle_cases_spec demoStore "rm" "a" 3).2 chainRoadmap rfl).1,
   (((toggle_cases_spec demoStore "rm" "a" 3).2 chainRoadmap rfl).2.2 (by decide))⟩

/-- The structural fields of a node — everything except `is_completed`. -/
def nodeStruct (n : RoadmapNode) :
    String × String × String × List LearningResource × List String ×
      Option String × Option String :=
  (n.id, n.skill_name, n.description, n.resources, n.prerequisites,
   n.prev_node_id, n.next_node_id)

/-- Count of positions at which the completion flags of two node lists
differ. -/
def flagDiffs (ns ms : List RoadmapNode) : Nat :=
  ((ns.zip ms).filter (fun p => p.1.is_completed != p.2.is_completed)).length

lemma toggleNodes_struct (ns : List RoadmapNode) (nid : String) :
    (toggleNodes ns nid).map nodeStruct = ns.map nodeStruct := by
  induction ns with
  | nil => rfl
  | cons n ns ih =>
    by_cases h : (n.id == nid) = true
    · simp [toggleNodes, h, nodeStruct]
    · simp only [Bool.not_eq_true] at h
      simp [toggleNodes, h, ih]

lemma flagDiffs_self (ns : List RoadmapNode) : flagDiffs ns ns = 0 := by
  induction ns with
  | nil => rfl
  | cons n ns ih =>
    unfold flagDiffs at ih ⊢
    simp [ih]

lemma toggleNodes_flagDiffs (ns : List RoadmapNode) (nid : String) :
    flagDiffs (toggleNodes ns nid) ns ≤ 1 := by
  induction ns with
  | nil => exact Nat.zero_le 1
  | cons n ns ih =>
    by_cases h : (n.id == nid) = true
    · unfold toggleNodes flagDiffs
      simp only [h, if_pos]
      have hdiff : ((!n.is_completed) != n.is_completed) = true := by
        cases n.is_completed <;> rfl
      simp only [List.zip_cons_cons, List.filter_cons, hdiff, if_pos,
        List.length_cons]
      have := flagDiffs_self ns
      unfold flagDiffs at this
      rw [this]
    · simp only [Bool.not_eq_true] at h
      unfold toggleNodes flagDiffs
      simp only [h, Bool.false_eq_true, if_neg, not_false_iff,
        List.zip_cons_cons, List.filter_cons, bne_self_eq_false,
        Bool.false_eq_true, if_neg]
      exact ih

/-- C8: the completion toggle mutates only completion flags and the
roadmap's `updated_at`: the record id, owner, skill name and creation
instant are unchanged, every node keeps all its structural fields (id,
skill name, description, resources, prerequisites, prev/next links) in the
same positions, and at most one node's `is_completed` flag differs. -/
theorem toggle_frame (r : Roadmap) (nid : String) (now : Int) :
    (toggleRoadmap r nid now).id = r.id ∧
    (toggleRoadmap r nid now).user_id = r.user_id ∧
    (toggleRoadmap r nid now).skill_name = r.skill_name ∧
    (toggleRoadmap r nid now).created_at = r.created_at ∧
    (toggleRoadmap r nid now).updated_at = now ∧
    (toggleRoadmap r nid now).nodes.map nodeStruct = r.nodes.map nodeStruct ∧
    flagDiffs (toggleRoadmap r nid now).nodes r.nodes ≤ 1 :=
  ⟨rfl, rfl, rfl, rfl, rfl, toggleNodes_struct r.nodes nid,
   toggleNodes_flagDiffs r.nodes nid⟩

/-- C10: even when the node id matches nothing, the toggle still reads the
aggregate, refreshes `updated_at` to the toggle instant and writes the
whole record back: the stored record becomes the old roadmap with only its
`updated_at` replaced, so the "no-op" is observable through the
timestamp. -/
theorem toggle_missing_node_rewrites (store : String → Option Roadmap)
    (rid nid : String) (now : Int) (r : Roadmap)
    (hr : store rid = some r)
    (hmiss : nid ∉ r.nodes.map (fun n => n.id)) :
    toggle_node_completion store rid nid now
      = Except.ok { r with updated_at := now } ∧
    (toggleRoadmap r nid now).updated_at = now ∧
    (toggleRoadmap r nid now).nodes = r.nodes := by
  have hnodes : toggleNodes r.nodes nid = r.nodes := toggleNodes_not_mem hmiss
  refine ⟨?_, rfl, hnodes⟩
  simp only [toggle_node_completion, hr]
  unfold toggleRoadmap
  rw [hnodes]

/-- C10 witness: toggling absent node id "zz" on the stored chain roadmap
rewrites the record with a fresh `updated_at` and untouched nodes. -/
theorem toggle_missing_node_rewrites_witness :
    demoStore "rm" = some chainRoadmap ∧
    ("zz" ∉ chainRoadmap.nodes.map (fun n => n.id)) ∧
    (toggle_node_completion demoStore "rm" "zz" 7
       = Except.ok { chainRoadmap with updated_at := 7 } ∧
     (toggleRoadmap chainRoadmap "zz" 7).updated_at = 7 ∧
     (toggleRoadmap chainRoadmap "zz" 7).nodes = chainRoadmap.nodes) :=
  ⟨rfl, by decide,
   toggle_missing_node_rewrites demoStore "rm" "zz" 7 chainRoadmap rfl
     (by decide)⟩

/-- Mirrors `models.rs::UserPreferences`. -/
structure UserPreferences where
  learning_style : String
  time_commitment : String
  preferred_content_types : List String
  difficulty_preference : String
deriving DecidableEq, Repr

/-- Mirrors `models.rs::User`. -/
structure User where
  id : Option String
  username : String
  password_hash : String
  name : String
  skills_learned : List String
  preferences : UserPreferences
  created_at : Int
deriving DecidableEq, Repr

/-- Mirrors `models.rs::QuestionResponse`. -/
structure QuestionResponse where
  question_id : String
  answer : List String
deriving DecidableEq, Repr

/-- The backend calls `generate_roadmap` can issue after resolving the
session: the query-expansion generative call (`generate_rag_queries`), the
embedding + similarity-search retrieval (`search_vector_db_multi_query`),
the synthesis generative call (`generate_roadmap_with_llm`) and the record
creation (`db.create("roadmaps")`). -/
inductive BackendCall where
  | queryExpansion
  | retrieval
  | synthesis
  | storeCreate
deriving DecidableEq, Repr

/-- Outcomes of the external collaborators consumed by `generate_roadmap`,
supplied as oracles: the session's user (from `get_user_data`), and the
results of the three pipeline stages plus the store's create response. -/
structure GenOracles where
  sessionUser : Option User
  ragQueries : Except String (List String)
  retrieved : Except String (List CoursesDataClean)
  synthesized : Except String (List RoadmapNode)
  storeCreated : Option String

/-- The orchestration of `server_functions.rs::generate_roadmap`, returning
the result together with the trace of backend calls issued.  The source
resolves the session and extracts the user id, then runs query expansion,
retrieval, synthesis and the store create strictly in that order, stopping
at the first failure; at no point are `skill_name` or `responses`
inspected — they are forwarded to the collaborators verbatim, and no
input-validation branch exists.  (A `None` create response makes the
source's `created.unwrap()` panic; it is modelled as an error.) -/
def generate_roadmap_model (skill_name : String)
    (responses : List QuestionResponse) (o : GenOracles) :
    Except String String × List BackendCall :=
  match o.sessionUser with
  | none => (Except.error "Invalid or expired session", [])
  | some user =>
    match user.id with
    | none => (Except.error "User ID not found", [])
    | some _ =>
      match o.ragQueries with
      | Except.error e => (Except.error e, [BackendCall.queryExpansion])
      | Except.ok _ =>
        match o.retrieved with
        | Except.error e =>
          (Except.error e, [BackendCall.queryExpansion, BackendCall.retrieval])
        | Except.ok _ =>
          match o.synthesized with
          | Except.error e =>
            (Except.error e,
             [BackendCall.queryExpansion, BackendCall.retrieval,
              BackendCall.synthesis])
          | Except.ok _ =>
            match o.storeCreated with
            | none =>
              (Except.error "record creation returned no id",
               [BackendCall.queryExpansion, BackendCall.retrieval,
                BackendCall.synthesis, BackendCall.storeCreate])
            | some rid =>
              (Except.ok rid,
               [BackendCall.queryExpansion, BackendCall.retrieval,
                BackendCall.synthesis, BackendCall.storeCreate])

/-- A valid session user. -/
def demoUser : User :=
  { id := some "users-u1", username := "u", password_hash := "", name := ""
    skills_learned := [], preferences := ⟨"", "", [], ""⟩, created_at := 0 }

/-- Collaborator outcomes for a healthy run. -/
def demoOracles : GenOracles :=
  { sessionUser := some demoUser
    ragQueries := Except.ok ["q1"]
    retrieved := Except.ok []
    synthesized := Except.ok []
    storeCreated := some "roadmaps-1" }

/-- C9 counterexample: a request with an *empty* skill name and an *empty*
responses list is not rejected — with a valid session it proceeds through
the query-expansion generative call, the retrieval, the synthesis and the
store create, and succeeds.  No input-validation error exists before the
backend calls (the only empty-skill guard in the repository is in the
`create_roadmap` page, before question generation, in the excluded
presentation layer). -/
theorem empty_skill_not_rejected :
    (generate_roadmap_model "" [] demoOracles).1 = Except.ok "roadmaps-1" ∧
    (generate_roadmap_model "" [] demoOracles).2
      = [BackendCall.queryExpansion, BackendCall.retrieval,
         BackendCall.synthesis, BackendCall.storeCreate] :=
  ⟨rfl, rfl⟩

/-- C9 (amended): `generate_roadmap` performs no validation of the skill
name or the responses list.  Whenever the session resolves to a user with
an id, the first backend call issued is the query-expansion generative
call — for every skill name (including the empty one) and every responses
list (including the empty one); rejection-before-backend-call never
happens. -/
theorem no_validation_before_backend_calls (skill_name : String)
    (responses : List QuestionResponse) (o : GenOracles)
    (user : User) (uid : String)
    (hu : o.sessionUser = some user) (hid : user.id = some uid) :
    (generate_roadmap_model skill_name responses o).2.head?
      = some BackendCall.queryExpansion := by
  cases hq : o.ragQueries <;> cases hr : o.retrieved <;>
    cases hs : o.synthesized <;> cases hc : o.storeCreated <;>
      simp [generate_roadmap_model, hu, hid, hq, hr, hs, hc]

/-- C9 witness: the healthy-session oracles with empty skill and empty
responses still begin with the query-expansion backend call. -/
theorem no_validation_before_backend_calls_witness :
    demoOracles.sessionUser = some demoUser ∧
    demoUser.id = some "users-u1" ∧
    (generate_roadmap_model "" [] demoOracles).2.head?
      = some BackendCall.queryExpansion :=
  ⟨rfl, rfl,
   no_validation_before_backend_calls "" [] demoOracles demoUser "users-u1"
     rfl rfl⟩
